import Mathlib

/-!
# Verification of the sqlx build-time query expansion pipeline

Shallow embedding of the `sqlx-macros` query-expansion pipeline:
`expand_query` / `expand_query_as` / `expand_query_file` / `expand_query_file_as`
(`sqlx-macros/src/query_macros/query.rs`, `mod.rs`), the Postgres type-mapping
registry (`sqlx-macros/src/database/postgres.rs`), and the parts of the
pipeline whose source files are not present in the repository snapshot
(`input.rs`, `args.rs`, `output.rs`), which are modelled from the
specification as marked in their doc comments.
-/

namespace Sqlx

/-- Nullability of a described result column
(`ColumnDescriptor.nullability` in the data model). -/
inductive Nullability
  | definitelyNotNull
  | definitelyNull
  | unknown
  deriving DecidableEq, Repr

/-- Backend type identifier for the Postgres backend.  The registry in
`sqlx-macros/src/database/postgres.rs` enumerates the backend types that the
listed host types map to; other backend types are unmapped (`other`). -/
inductive PgTypeId
  | bool
  | text
  | int2
  | int4
  | int8
  | float4
  | float8
  | other (oid : Nat)
  deriving DecidableEq, Repr

/-- Host-language (Rust) type descriptors, as they appear in generated code.
`option t` is the optional wrapper `Option<t>`. -/
inductive HostType
  | bool
  | string
  | i16
  | i32
  | i64
  | f32
  | f64
  | option (t : HostType)
  deriving DecidableEq, Repr

/-- Whether a host type is the optional-wrapped form. -/
def HostType.isOption : HostType → Bool
  | .option _ => true
  | _ => false

/-- One described result column: name, backend type id, nullability. -/
structure ColumnDescriptor where
  name : String
  type_id : PgTypeId
  nullability : Nullability
  deriving DecidableEq, Repr

/-- Result of the describe round trip: ordered parameter type ids and ordered
result column descriptors. -/
structure Describe where
  param_types : List PgTypeId
  result_columns : List ColumnDescriptor
  deriving DecidableEq, Repr

/-- One bind-argument expression of the macro invocation.  The expression text
is opaque; `ty` is the host type the host language infers for the expression
(host-language inference is an external collaborator, so the inferred type is
carried as data). -/
structure Arg where
  expr : String
  ty : HostType
  deriving DecidableEq, Repr

/-- `QueryMacroInput`: SQL source text (or, before file expansion, a file
path), its provenance span, and the ordered argument expressions. -/
structure QueryMacroInput where
  source : String
  source_span : Nat
  args : List Arg
  deriving DecidableEq, Repr

/-- `QueryAsMacroInput`: the inner query input plus the named target type
`as_ty`, with the target's ordered `(field name, declared host type)` pairs as
supplied by the syntax layer. -/
structure QueryAsMacroInput where
  query_input : QueryMacroInput
  as_ty : String
  as_fields : List (String × HostType)
  deriving DecidableEq, Repr

/-- Error taxonomy of the expansion pipeline (spec §7). -/
inductive ExpandError
  | describeError (msg : String)
  | arityMismatch (expected actual : Nat)
  | argTypeMismatch (position : Nat) (expected : PgTypeId) (declared : HostType)
  | unresolvedColumnType (column : String) (type_id : PgTypeId)
  | invalidIdentifier (name : String)
  | duplicateColumnName (name : String)
  | fieldMismatch (missing extra : List String)
  | noColumns
  deriving DecidableEq, Repr

/-- The checking strictness declared by a backend registry. -/
inductive ParamChecking
  | strong
  | weak
  deriving DecidableEq, Repr

/-- The Postgres backend's type table, from the `impl_database_ext!`
invocation in `sqlx-macros/src/database/postgres.rs`: each listed host type
paired with its backend type id.  The feature-gated `uuid`/`chrono` entries
are behind disabled cargo features and are omitted. -/
def postgresTypeTable : List (PgTypeId × HostType) :=
  [ (.bool, .bool),
    (.text, .string),
    (.int2, .i16),
    (.int4, .i32),
    (.int8, .i64),
    (.float4, .f32),
    (.float8, .f64) ]

/-- The checking mode declared for Postgres:
`ParamChecking::Strong` in `postgres.rs`. -/
def postgresParamChecking : ParamChecking := .strong

/-- Host types registered for a backend type id in the Postgres registry. -/
def registeredTypes (id : PgTypeId) : List HostType :=
  (postgresTypeTable.filter (fun p => p.1 = id)).map Prod.snd

/-- `return_type_for_id`: the host type a result column of the given backend
type resolves to, if any. -/
def return_type_for_id (id : PgTypeId) : Option HostType :=
  (postgresTypeTable.find? (fun p => p.1 = id)).map Prod.snd

/-- Modelled from the spec: the checking-mode compatibility rule of the Type
Mapping Registry (§4.3); the `impl_database_ext!` macro definition and the
argument-checking code (`args.rs`) are not in the repository snapshot.  Under
`Strong` mode the declared host type must be exactly one of the registered
types for the parameter's type id; under `Weak` mode an implicit conversion is
also accepted (for Postgres the mode is `Strong`, so the weak branch is
unused). -/
def is_param_compatible (mode : ParamChecking) (id : PgTypeId) (declared : HostType) : Bool :=
  match mode with
  | .strong => (registeredTypes id).contains declared
  | .weak => (registeredTypes id).contains declared

/-- A connection is consumed by the pipeline only through its describe
operation: a map from SQL text to a describe result or a describe failure
(the wire protocol is an external collaborator). -/
def Conn : Type := String → Except ExpandError Describe

/-- Modelled from the spec: `QueryMacroInput::describe_validate` lives in
`query_macros/input.rs`, which is not in the repository snapshot; only its
call sites in `query.rs` and `mod.rs` are.  Per §4.2/§8 it performs the
describe round trip and validates the arity invariant of §3
(`parameter_types.len()` must equal `arguments.len()`; mismatch is the
hard failure `ArityMismatch`). -/
def describe_validate (input : QueryMacroInput) (conn : Conn) : Except ExpandError Describe :=
  match conn input.source with
  | .error e => .error e
  | .ok d =>
    if input.args.length ≠ d.param_types.length then
      .error (.arityMismatch d.param_types.length input.args.length)
    else
      .ok d

/-- One entry of the `BindingPlan`: bind the already-checked argument
expression as positional parameter `index`. -/
structure BindEntry where
  index : Nat
  expr : String
  deriving DecidableEq, Repr

/-- Modelled from the spec: the body of `args::quote_args` (`args.rs`) is not
in the repository snapshot.  Per §4.4 it zips the argument expressions with
the described parameter types positionally and checks each pair's
compatibility under the registry's checking mode, failing with
`ArgTypeMismatch{position, expected, declared}` at the first incompatible
pair, and otherwise produces the ordered `BindingPlan`. -/
def check_args (pos : Nat) : List Arg → List PgTypeId → Except ExpandError (List BindEntry)
  | [], [] => .ok []
  | [], _ :: ts => .error (.arityMismatch (pos + ts.length + 1) pos)
  | as, [] => .error (.arityMismatch pos (pos + as.length))
  | a :: as, t :: ts =>
    if is_param_compatible postgresParamChecking t a.ty then
      match check_args (pos + 1) as ts with
      | .error e => .error e
      | .ok rest => .ok (⟨pos, a.expr⟩ :: rest)
    else
      .error (.argTypeMismatch pos t a.ty)

/-- `args::quote_args`, modelled from the spec (§4.4): see `check_args`. -/
def quote_args (input : QueryMacroInput) (d : Describe) : Except ExpandError (List BindEntry) :=
  check_args 0 input.args d.param_types

/-- Whether a column name is representable as a Rust field identifier:
nonempty, first character a letter or underscore, rest alphanumeric or
underscore. -/
def isValidIdent (s : String) : Bool :=
  match s.data with
  | [] => false
  | c :: cs => (c.isAlpha || c = '_') && cs.all (fun d => d.isAlphanum || d = '_')

/-- One generated-output-plan entry: field identifier and resolved host type
(`output::RustColumn`). -/
structure RustColumn where
  ident : String
  type_ : HostType
  deriving DecidableEq, Repr

/-- Modelled from the spec: `output::columns_to_rust` (`output.rs`) is not in
the repository snapshot; only its call sites in `query.rs` and `mod.rs` are.
Per §3/§4.5 each `ColumnDescriptor` resolves to a `RustColumn` whose field
name derives from the column name (a name that is not a valid identifier is
the hard failure `InvalidIdentifier`), whose base host type comes from the
registry (an unmapped type id is the hard failure `UnresolvedColumnType`),
wrapped in the optional wrapper iff nullability is `Unknown` or
`DefinitelyNull`. -/
def column_to_rust (c : ColumnDescriptor) : Except ExpandError RustColumn :=
  if ¬ isValidIdent c.name then
    .error (.invalidIdentifier c.name)
  else
    match return_type_for_id c.type_id with
    | none => .error (.unresolvedColumnType c.name c.type_id)
    | some t =>
      .ok { ident := c.name,
            type_ := match c.nullability with
              | .definitelyNotNull => t
              | .definitelyNull => .option t
              | .unknown => .option t }

/-- `output::columns_to_rust` over the whole describe result, in column
order (modelled from the spec, see `column_to_rust`). -/
def columns_to_rust : List ColumnDescriptor → Except ExpandError (List RustColumn)
  | [] => .ok []
  | c :: cs =>
    match column_to_rust c with
    | .error e => .error e
    | .ok rc =>
      match columns_to_rust cs with
      | .error e => .error e
      | .ok rest => .ok (rc :: rest)

/-- The output shape of an emitted code unit: no output row type (each row
maps to unit, the empty-columns branch of `expand_query`), a freshly
synthesized record type (the anonymous branch of `expand_query`, which emits
`#[derive(Debug)] struct Record { ... }` — `derives` records the derive list,
`fields` the record fields in order), or a caller-supplied named target type
with the ordered column-to-field decode mapping (`expand_query_as`). -/
inductive OutputPlan
  | noOutput
  | record (name : String) (derives : List String) (fields : List RustColumn)
  | named (path : String) (fields : List RustColumn)
  deriving DecidableEq, Repr

/-- The emitted code unit of one expansion: the SQL text spliced into the
query call, the ordered binding plan (`.bind_all(args)`), and the output
plan. -/
structure Expansion where
  sql : String
  bindings : List BindEntry
  output : OutputPlan
  deriving DecidableEq, Repr

/-- First element of a list that occurs again later in it, if any (used to
detect a duplicate column name deterministically). -/
def firstDup : List String → Option String
  | [] => none
  | x :: xs => if xs.contains x then some x else firstDup xs

/-- Modelled from the spec: the named-target part of `output::quote_query_as`
(`output.rs`) is not in the repository snapshot.  Per §3/§4.5 step 3, a
duplicate column name is a hard failure for a named target; the set of target
field names and the set of column names must be equal, a disagreement failing
with `FieldMismatch{missing, extra}` where `missing` names the fields declared
by the target but not described and `extra` the described columns not declared
by the target; on success the columns are reordered to the target's declared
field order.  Declared field types are not compared with resolved column
types here: per Scenario D (§8) and the `test_nullable_err` test, declared
type compatibility surfaces at decode time, not at resolution time. -/
def resolve_named (fields : List (String × HostType)) (columns : List RustColumn) :
    Except ExpandError (List RustColumn) :=
  match firstDup (columns.map RustColumn.ident) with
  | some n => .error (.duplicateColumnName n)
  | none =>
    let colNames := columns.map RustColumn.ident
    let fieldNames := fields.map Prod.fst
    let missing := fieldNames.filter (fun n => ¬ colNames.contains n)
    let extra := colNames.filter (fun n => ¬ fieldNames.contains n)
    if missing.isEmpty ∧ extra.isEmpty then
      .ok (fields.filterMap (fun f => columns.find? (fun c => c.ident = f.1)))
    else
      .error (.fieldMismatch missing extra)

/-- `expand_query` (`query_macros/query.rs`): describe-and-validate, quote the
arguments, and either emit the unit-mapped query when the describe result has
no columns, or synthesize the anonymous `Record` type (with a derived `Debug`)
with one field per described column in column order. -/
def expand_query (input : QueryMacroInput) (conn : Conn) : Except ExpandError Expansion :=
  match describe_validate input conn with
  | .error e => .error e
  | .ok describe =>
    match quote_args input describe with
    | .error e => .error e
    | .ok args =>
      if describe.result_columns.isEmpty then
        .ok { sql := input.source, bindings := args, output := .noOutput }
      else
        match columns_to_rust describe.result_columns with
        | .error e => .error e
        | .ok columns =>
          .ok { sql := input.source, bindings := args,
                output := .record "Record" ["Debug"] columns }

/-- `expand_query_as` (`query_macros/mod.rs`): describe-and-validate, fail
with the no-columns error when the describe result has no columns, quote the
arguments, and emit the named-target query. -/
def expand_query_as (input : QueryAsMacroInput) (conn : Conn) : Except ExpandError Expansion :=
  match describe_validate input.query_input conn with
  | .error e => .error e
  | .ok describe =>
    if describe.result_columns.isEmpty then
      .error .noColumns
    else
      match quote_args input.query_input describe with
      | .error e => .error e
      | .ok args =>
        match columns_to_rust describe.result_columns with
        | .error e => .error e
        | .ok columns =>
          match resolve_named input.as_fields columns with
          | .error e => .error e
          | .ok fields =>
            .ok { sql := input.query_input.source, bindings := args,
                  output := .named input.as_ty fields }

/-- A file loader: path to file contents, or an I/O failure (an external
collaborator, §6). -/
def FileLoader : Type := String → Except ExpandError String

/-- Modelled from the spec: `QueryMacroInput::expand_file_src` (`input.rs`) is
not in the repository snapshot.  Per §4.1 the file-based variant resolves the
source (a path) to the file's content first and otherwise leaves the input
unchanged. -/
def QueryMacroInput.expand_file_src (load : FileLoader) (input : QueryMacroInput) :
    Except ExpandError QueryMacroInput :=
  match load input.source with
  | .error e => .error e
  | .ok content => .ok { input with source := content }

/-- `QueryAsMacroInput::expand_file_src`: file expansion of the inner query
input (modelled from the spec, see `QueryMacroInput.expand_file_src`). -/
def QueryAsMacroInput.expand_file_src (load : FileLoader) (input : QueryAsMacroInput) :
    Except ExpandError QueryAsMacroInput :=
  match input.query_input.expand_file_src load with
  | .error e => .error e
  | .ok qi => .ok { input with query_input := qi }

/-- `expand_query_file` (`query_macros/mod.rs`): expand the file source, then
`expand_query`. -/
def expand_query_file (load : FileLoader) (input : QueryMacroInput) (conn : Conn) :
    Except ExpandError Expansion :=
  match input.expand_file_src load with
  | .error e => .error e
  | .ok input => expand_query input conn

/-- `expand_query_file_as` (`query_macros/mod.rs`): expand the file source,
then `expand_query_as`. -/
def expand_query_file_as (load : FileLoader) (input : QueryAsMacroInput) (conn : Conn) :
    Except ExpandError Expansion :=
  match input.expand_file_src load with
  | .error e => .error e
  | .ok input => expand_query_as input conn

/-- Decode-time errors of the runtime row-decoding contract. -/
inductive DecodeError
  | unexpectedNull
  deriving DecidableEq, Repr

/-- A decoded host value: `none` for a null decoded into an optional type,
`val` for a present raw value. -/
inductive HostValue
  | none
  | val (raw : String)
  deriving DecidableEq, Repr

/-- Modelled from the spec: the runtime row-decoding contract (the runtime
machinery is an external collaborator; only its build-time contract is in
scope).  Decoding a database value at a declared host type: a null decodes to
`none` at an optional-wrapped type (§3: the optional wrapper exists so that
runtime decoding tolerates null) and fails with `UnexpectedNull` at a bare
type, as exercised by `tests/postgres-macros.rs` (`test_query_as`,
`test_nullable_err`). -/
def decode (t : HostType) : Option String → Except DecodeError HostValue
  | none =>
    match t with
    | .option _ => .ok .none
    | _ => .error .unexpectedNull
  | some raw => .ok (.val raw)


/-- Concrete result-set fixture mirroring `tests/postgres-macros.rs`
(`test_query`, `test_query_as`, `test_nullable_err`): columns
`accounts(id, name)` with `id` definitely not null and `name` of unknown
nullability. -/
def sampleColumns : List ColumnDescriptor :=
  [⟨"id", .int4, .definitelyNotNull⟩, ⟨"name", .text, .unknown⟩]

/-- Describe result for `sampleColumns` with one 32-bit integer parameter. -/
def sampleDescribe : Describe := ⟨[.int4], sampleColumns⟩

/-- A connection describing every statement as `sampleDescribe`. -/
def sampleConn : Conn := fun _ => .ok sampleDescribe

/-- The macro invocation of the `test_query` test: one bound argument of the
32-bit integer type. -/
def sampleInput : QueryMacroInput :=
  ⟨"SELECT * from (VALUES (1, null)) accounts(id, name) where id = $1", 0,
    [⟨"1i32", .i32⟩]⟩

/-- A connection describing every statement with no parameters and no result
columns (a DDL/DML statement). -/
def emptyConn : Conn := fun _ => .ok ⟨[], []⟩

/-- An argument-free invocation of a statement producing no columns. -/
def ddlInput : QueryMacroInput := ⟨"DELETE from accounts", 0, []⟩

/-- A connection agreeing with `sampleConn` on `sampleInput.source` only. -/
def sampleConnAlt : Conn := fun s =>
  if s = sampleInput.source then .ok sampleDescribe else .error (.describeError "other")

/-- A file loader resolving every path to the text of `sampleInput`. -/
def sampleLoader : FileLoader := fun _ => .ok sampleInput.source

/-- Named target of the `test_nullable_err` test: `Account` with a bare
(non-optional) `name` field. -/
def acctBare : QueryAsMacroInput :=
  ⟨sampleInput, "Account", [("id", .i32), ("name", .string)]⟩

/-- Named target of the `test_query_as` test: `Account` with an
optional-wrapped `name` field. -/
def acctOpt : QueryAsMacroInput :=
  ⟨sampleInput, "Account", [("id", .i32), ("name", .option .string)]⟩

/-! ## Basic properties of the embedded pipeline -/



lemma firstDup_eq_none_iff {l : List String} : firstDup l = none ↔ l.Nodup := by
  induction l with
  | nil => simp [firstDup]
  | cons x xs ih =>
    by_cases hx : x ∈ xs <;> simp [firstDup, List.nodup_cons, hx, ih]

lemma resolve_named_of_nodup (fields : List (String × HostType)) (cols : List RustColumn)
    (hnodup : (cols.map RustColumn.ident).Nodup) :
    resolve_named fields cols =
      (if ((fields.map Prod.fst).filter
              (fun n => ¬ (cols.map RustColumn.ident).contains n)).isEmpty
          ∧ (((cols.map RustColumn.ident)).filter
              (fun n => ¬ (fields.map Prod.fst).contains n)).isEmpty then
        .ok (fields.filterMap (fun f => cols.find? (fun c => c.ident = f.1)))
      else
        .error (.fieldMismatch
          ((fields.map Prod.fst).filter (fun n => ¬ (cols.map RustColumn.ident).contains n))
          (((cols.map RustColumn.ident)).filter (fun n => ¬ (fields.map Prod.fst).contains n)))) := by
  unfold resolve_named
  rw [show firstDup (cols.map RustColumn.ident) = none from firstDup_eq_none_iff.mpr hnodup]

lemma resolve_named_ok_iff (fields : List (String × HostType)) (cols : List RustColumn)
    (r : List RustColumn) :
    resolve_named fields cols = .ok r ↔
      (cols.map RustColumn.ident).Nodup
      ∧ (∀ n ∈ fields.map Prod.fst, n ∈ cols.map RustColumn.ident)
      ∧ (∀ n ∈ cols.map RustColumn.ident, n ∈ fields.map Prod.fst)
      ∧ r = fields.filterMap (fun f => cols.find? (fun c => c.ident = f.1)) := by
  by_cases hnodup : (cols.map RustColumn.ident).Nodup
  · rw [resolve_named_of_nodup fields cols hnodup]
    by_cases hcond : ((fields.map Prod.fst).filter
              (fun n => ¬ (cols.map RustColumn.ident).contains n)).isEmpty
          ∧ (((cols.map RustColumn.ident)).filter
              (fun n => ¬ (fields.map Prod.fst).contains n)).isEmpty
    · simp only [if_pos hcond]
      simp only [List.isEmpty_iff, List.filter_eq_nil_iff] at hcond
      simp only [Except.ok.injEq]
      constructor
      · rintro rfl
        refine ⟨hnodup, ?_, ?_, rfl⟩
        · intro n hn
          have := hcond.1 n hn
          simpa using this
        · intro n hn
          have := hcond.2 n hn
          simpa using this
      · rintro ⟨-, -, -, rfl⟩
        rfl
    · simp only [if_neg hcond]
      simp only [List.isEmpty_iff, List.filter_eq_nil_iff] at hcond
      constructor
      · intro h
        exact absurd h (by simp)
      · rintro ⟨-, h1, h2, -⟩
        exfalso
        apply hcond
        constructor
        · intro n hn
          simpa using h1 n hn
        · intro n hn
          simpa using h2 n hn
  · unfold resolve_named
    have : firstDup (cols.map RustColumn.ident) ≠ none := by
      intro hc
      exact hnodup (firstDup_eq_none_iff.mp hc)
    cases hd : firstDup (cols.map RustColumn.ident) with
    | none => exact absurd hd this
    | some n =>
      simp only []
      constructor
      · intro h
        exact absurd h (by simp)
      · rintro ⟨h, -⟩
        exact absurd h hnodup



lemma filter_not_contains_eq_nil {l m : List String} (h : ∀ n ∈ l, n ∈ m) :
    l.filter (fun n => ¬ m.contains n) = [] := by
  rw [List.filter_eq_nil_iff]
  intro a ha
  simpa using h a ha

lemma filter_eq_singleton_of_nodup {l : List String} {p : String → Bool} {y : String}
    (hnd : l.Nodup) (hy : y ∈ l) (h : ∀ n ∈ l, (p n = true ↔ n = y)) :
    l.filter p = [y] := by
  induction l with
  | nil => cases hy
  | cons x xs ih =>
    rw [List.nodup_cons] at hnd
    by_cases hxy : x = y
    · subst hxy
      have hpx : p x = true := (h x (by simp)).mpr rfl
      have hrest : xs.filter p = [] := by
        rw [List.filter_eq_nil_iff]
        intro a ha hpa
        have := (h a (by simp [ha])).mp hpa
        subst this
        exact hnd.1 ha
      simp [List.filter_cons, hpx, hrest]
    · have hyxs : y ∈ xs := by
        cases hy with
        | head => exact absurd rfl hxy
        | tail _ h => exact h
      have hpx : p x = false := by
        by_contra hc
        have := (h x (by simp)).mp (by simpa using hc)
        exact hxy this
      rw [List.filter_cons_of_neg (by simp [hpx])]
      exact ih hnd.2 hyxs (fun n hn => h n (by simp [hn]))



/-- C5: for every named-target resolution, the set of field names declared by
the target type and the set of column names from the describe result must be
equal; a permutation of either order never by itself causes failure, while
adding or removing a single name on either side always causes a
`FieldMismatch` failure naming exactly the differing name. -/
theorem c5_field_set_equality (fields : List (String × HostType)) (cols : List RustColumn)
    (r : List RustColumn)
    (hnodupF : (fields.map Prod.fst).Nodup)
    (hok : resolve_named fields cols = .ok r) :
    (∀ (fields' : List (String × HostType)) (cols' : List RustColumn),
        fields'.Perm fields → cols'.Perm cols →
        ∃ r', resolve_named fields' cols' = .ok r')
    ∧ (∀ (x : String) (t : HostType), x ∉ cols.map RustColumn.ident →
        resolve_named (fields ++ [(x, t)]) cols = .error (.fieldMismatch [x] []))
    ∧ (∀ (f₁ f₂ : List (String × HostType)) (y : String) (t : HostType),
        fields = f₁ ++ (y, t) :: f₂ →
        resolve_named (f₁ ++ f₂) cols = .error (.fieldMismatch [] [y]))
    ∧ (∀ (rc : RustColumn), rc.ident ∉ cols.map RustColumn.ident →
        resolve_named fields (cols ++ [rc]) = .error (.fieldMismatch [] [rc.ident]))
    ∧ (∀ (c₁ c₂ : List RustColumn) (rc : RustColumn), cols = c₁ ++ rc :: c₂ →
        resolve_named fields (c₁ ++ c₂) = .error (.fieldMismatch [rc.ident] [])) := by
  obtain ⟨hndC, hFC, hCF, -⟩ := (resolve_named_ok_iff fields cols r).mp hok
  refine ⟨?_, ?_, ?_, ?_, ?_⟩
  · -- permutation invariance
    intro fields' cols' hpf hpc
    refine ⟨_, (resolve_named_ok_iff _ _ _).mpr ⟨?_, ?_, ?_, rfl⟩⟩
    · exact ((hpc.map RustColumn.ident).nodup_iff).mpr hndC
    · intro n hn
      exact (hpc.map RustColumn.ident).mem_iff.mpr
        (hFC n ((hpf.map Prod.fst).mem_iff.mp hn))
    · intro n hn
      exact (hpf.map Prod.fst).mem_iff.mpr
        (hCF n ((hpc.map RustColumn.ident).mem_iff.mp hn))
  · -- adding a fresh field name
    intro x t hx
    rw [resolve_named_of_nodup _ _ hndC]
    have hmiss : ((fields ++ [(x, t)]).map Prod.fst).filter
        (fun n => ¬ (cols.map RustColumn.ident).contains n) = [x] := by
      rw [List.map_append, List.filter_append, filter_not_contains_eq_nil hFC]
      simp [hx]
      intro c hc hcx
      exact hx (hcx ▸ List.mem_map_of_mem RustColumn.ident hc)
    have hextra : (cols.map RustColumn.ident).filter
        (fun n => ¬ ((fields ++ [(x, t)]).map Prod.fst).contains n) = [] := by
      apply filter_not_contains_eq_nil
      intro n hn
      rw [List.map_append]
      exact List.mem_append_left _ (hCF n hn)
    rw [hmiss, hextra]
    simp
  · -- removing a field name
    intro f₁ f₂ y t hf
    subst hf
    have hF : (f₁ ++ (y, t) :: f₂).map Prod.fst
        = f₁.map Prod.fst ++ y :: f₂.map Prod.fst := by simp
    rw [hF] at hnodupF hFC hCF
    rw [List.nodup_middle, List.nodup_cons] at hnodupF
    have hyC : y ∈ cols.map RustColumn.ident := hFC y (by simp)
    rw [resolve_named_of_nodup _ _ hndC]
    have hmiss : ((f₁ ++ f₂).map Prod.fst).filter
        (fun n => ¬ (cols.map RustColumn.ident).contains n) = [] := by
      apply filter_not_contains_eq_nil
      intro n hn
      rw [List.map_append] at hn
      rcases List.mem_append.mp hn with h | h
      · exact hFC n (List.mem_append_left _ h)
      · exact hFC n (List.mem_append_right _ (List.mem_cons_of_mem _ h))
    have hextra : (cols.map RustColumn.ident).filter
        (fun n => ¬ ((f₁ ++ f₂).map Prod.fst).contains n) = [y] := by
      apply filter_eq_singleton_of_nodup hndC hyC
      intro n hn
      have hmem := hCF n hn
      constructor
      · intro hp
        have hp' : n ∉ (f₁ ++ f₂).map Prod.fst := by simpa using hp
        rw [List.map_append] at hp'
        rcases List.mem_append.mp hmem with h | h
        · exact absurd (List.mem_append_left _ h) hp'
        · rcases List.mem_cons.mp h with h' | h'
          · exact h'
          · exact absurd (List.mem_append_right _ h') hp'
      · rintro rfl
        have h1 : n ∉ (f₁ ++ f₂).map Prod.fst := by
          rw [List.map_append]
          exact hnodupF.1
        simpa using h1
    rw [hmiss, hextra]
    simp
  · -- adding a fresh column
    intro rc hrc
    have hndC' : ((cols ++ [rc]).map RustColumn.ident).Nodup := by
      rw [List.map_append]
      simp [List.nodup_append, hndC, hrc]
    rw [resolve_named_of_nodup _ _ hndC']
    have hmiss : (fields.map Prod.fst).filter
        (fun n => ¬ ((cols ++ [rc]).map RustColumn.ident).contains n) = [] := by
      apply filter_not_contains_eq_nil
      intro n hn
      rw [List.map_append]
      exact List.mem_append_left _ (hFC n hn)
    have hextra : ((cols ++ [rc]).map RustColumn.ident).filter
        (fun n => ¬ (fields.map Prod.fst).contains n) = [rc.ident] := by
      rw [List.map_append, List.filter_append, filter_not_contains_eq_nil hCF]
      have : rc.ident ∉ fields.map Prod.fst := fun hc => hrc (hFC _ hc)
      simp [this]
    rw [hmiss, hextra]
    simp
  · -- removing a column
    intro c₁ c₂ rc hc
    subst hc
    have hC : (c₁ ++ rc :: c₂).map RustColumn.ident
        = c₁.map RustColumn.ident ++ rc.ident :: c₂.map RustColumn.ident := by simp
    rw [hC] at hndC hFC hCF
    rw [List.nodup_middle, List.nodup_cons] at hndC
    have hndC' : ((c₁ ++ c₂).map RustColumn.ident).Nodup := by
      rw [List.map_append]
      exact hndC.2
    have hrcF : rc.ident ∈ fields.map Prod.fst := hCF rc.ident (by simp)
    rw [resolve_named_of_nodup _ _ hndC']
    have hmiss : (fields.map Prod.fst).filter
        (fun n => ¬ ((c₁ ++ c₂).map RustColumn.ident).contains n) = [rc.ident] := by
      apply filter_eq_singleton_of_nodup hnodupF hrcF
      intro n hn
      have hmem := hFC n hn
      constructor
      · intro hp
        have hp' : n ∉ (c₁ ++ c₂).map RustColumn.ident := by simpa using hp
        rw [List.map_append] at hp'
        rcases List.mem_append.mp hmem with h | h
        · exact absurd (List.mem_append_left _ h) hp'
        · rcases List.mem_cons.mp h with h' | h'
          · exact h'
          · exact absurd (List.mem_append_right _ h') hp'
      · rintro rfl
        have h1 : rc.ident ∉ (c₁ ++ c₂).map RustColumn.ident := by
          rw [List.map_append]
          exact hndC.1
        simpa using h1
    have hextra : ((c₁ ++ c₂).map RustColumn.ident).filter
        (fun n => ¬ (fields.map Prod.fst).contains n) = [] := by
      apply filter_not_contains_eq_nil
      intro n hn
      rw [List.map_append] at hn
      rcases List.mem_append.mp hn with h | h
      · exact hCF n (List.mem_append_left _ h)
      · exact hCF n (List.mem_append_right _ (List.mem_cons_of_mem _ h))
    rw [hmiss, hextra]
    simp



lemma describe_validate_ok {input : QueryMacroInput} {conn : Conn} {d : Describe}
    (h : describe_validate input conn = .ok d) :
    conn input.source = .ok d ∧ input.args.length = d.param_types.length := by
  unfold describe_validate at h
  split at h
  · cases h
  · rename_i d' hc
    split at h
    · cases h
    · rename_i hl
      cases h
      exact ⟨hc, by simpa using hl⟩

lemma check_args_ok_length (as : List Arg) : ∀ (pos : Nat) (ts : List PgTypeId)
    (bp : List BindEntry), check_args pos as ts = .ok bp → as.length = ts.length := by
  induction as with
  | nil =>
    intro pos ts bp h
    cases ts with
    | nil => rfl
    | cons t ts => simp [check_args] at h
  | cons a as ih =>
    intro pos ts bp h
    cases ts with
    | nil => simp [check_args] at h
    | cons t ts =>
      rw [check_args] at h
      split at h
      · split at h
        · cases h
        · rename_i rest hr
          simp [List.length_cons, ih (pos + 1) ts rest hr]
      · cases h

lemma expand_query_ok {input : QueryMacroInput} {conn : Conn} {e : Expansion}
    (h : expand_query input conn = .ok e) :
    ∃ d args, describe_validate input conn = .ok d ∧ quote_args input d = .ok args ∧
      ((d.result_columns.isEmpty
          ∧ e = ⟨input.source, args, .noOutput⟩)
        ∨ (¬ d.result_columns.isEmpty
          ∧ ∃ cols, columns_to_rust d.result_columns = .ok cols
            ∧ e = ⟨input.source, args, .record "Record" ["Debug"] cols⟩)) := by
  unfold expand_query at h
  split at h
  · cases h
  · rename_i d hdv
    split at h
    · cases h
    · rename_i args hqa
      split at h
      · rename_i hemp
        cases h
        exact ⟨d, args, hdv, hqa, .inl ⟨hemp, rfl⟩⟩
      · rename_i hemp
        split at h
        · cases h
        · rename_i cols hcr
          cases h
          exact ⟨d, args, hdv, hqa, .inr ⟨hemp, cols, hcr, rfl⟩⟩

lemma expand_query_as_ok {input : QueryAsMacroInput} {conn : Conn} {e : Expansion}
    (h : expand_query_as input conn = .ok e) :
    ∃ d args cols fields, describe_validate input.query_input conn = .ok d
      ∧ ¬ d.result_columns.isEmpty
      ∧ quote_args input.query_input d = .ok args
      ∧ columns_to_rust d.result_columns = .ok cols
      ∧ resolve_named input.as_fields cols = .ok fields
      ∧ e = ⟨input.query_input.source, args, .named input.as_ty fields⟩ := by
  unfold expand_query_as at h
  split at h
  · cases h
  · rename_i d hdv
    split at h
    · cases h
    · rename_i hemp
      split at h
      · cases h
      · rename_i args hqa
        split at h
        · cases h
        · rename_i cols hcr
          split at h
          · cases h
          · rename_i fields hrn
            cases h
            exact ⟨d, args, cols, fields, hdv, hemp, hqa, hcr, hrn, rfl⟩

lemma column_to_rust_ok_inv {c : ColumnDescriptor} {rc : RustColumn}
    (h : column_to_rust c = .ok rc) :
    isValidIdent c.name = true ∧ rc.ident = c.name
      ∧ ∃ t, return_type_for_id c.type_id = some t
        ∧ rc.type_ = (match c.nullability with
            | .definitelyNotNull => t
            | .definitelyNull => .option t
            | .unknown => .option t) := by
  unfold column_to_rust at h
  split at h
  · cases h
  · rename_i hv
    split at h
    · cases h
    · rename_i t hr
      cases h
      exact ⟨by simpa using hv, rfl, t, hr, rfl⟩

lemma columns_to_rust_ok {cs : List ColumnDescriptor} {cols : List RustColumn}
    (h : columns_to_rust cs = .ok cols) :
    List.Forall₂ (fun c rc => column_to_rust c = .ok rc) cs cols := by
  induction cs generalizing cols with
  | nil => unfold columns_to_rust at h; cases h; exact .nil
  | cons c cs ih =>
    unfold columns_to_rust at h
    split at h
    · cases h
    · rename_i rc hc
      split at h
      · cases h
      · rename_i rest hcs
        cases h
        exact .cons hc (ih hcs)

lemma columns_to_rust_invalid {cs : List ColumnDescriptor} {c : ColumnDescriptor}
    (hc : c ∈ cs) (hinv : isValidIdent c.name = false) :
    ∀ cols, columns_to_rust cs ≠ .ok cols := by
  intro cols h
  have hall := columns_to_rust_ok h
  rw [List.forall₂_iff_get] at hall
  obtain ⟨i, hi⟩ := List.get_of_mem hc
  have := hall.2 i i.isLt (by rw [← hall.1]; exact i.isLt)
  rw [hi] at this
  have := (column_to_rust_ok_inv this).1
  rw [hinv] at this
  cases this

lemma return_type_not_option {id : PgTypeId} {t : HostType}
    (h : return_type_for_id id = some t) : t.isOption = false := by
  cases id <;> simp [return_type_for_id, postgresTypeTable, List.find?] at h <;>
    simp [← h, HostType.isOption]

/-! ## The claims -/


lemma resolve_named_mem {fields : List (String × HostType)} {cols r : List RustColumn}
    (h : resolve_named fields cols = .ok r) : ∀ x ∈ r, x ∈ cols := by
  obtain ⟨-, -, -, hr⟩ := (resolve_named_ok_iff fields cols r).mp h
  subst hr
  intro x hx
  obtain ⟨f, -, hf⟩ := List.mem_filterMap.mp hx
  exact List.mem_of_find?_eq_some hf

lemma resolve_named_names_only {fields fields' : List (String × HostType)}
    (cols : List RustColumn) (h : fields.map Prod.fst = fields'.map Prod.fst) :
    resolve_named fields cols = resolve_named fields' cols := by
  unfold resolve_named
  cases hfd : firstDup (cols.map RustColumn.ident) with
  | some n => rfl
  | none =>
    have e1 : (fun (f : String × HostType) => cols.find? (fun c => c.ident = f.1))
        = ((fun n => cols.find? (fun c => c.ident = n)) ∘ Prod.fst) := rfl
    have hfm : fields.filterMap (fun f => cols.find? (fun c => c.ident = f.1))
        = fields'.filterMap (fun f => cols.find? (fun c => c.ident = f.1)) := by
      rw [e1, ← List.filterMap_map, h, List.filterMap_map]
    rw [h, hfm]

/-- C2: for every `QueryInput` whose number of argument expressions differs
from the number of parameter types returned by describe, expansion -- both
the anonymous-target and the named-target variant -- fails with the
`ArityMismatch` hard failure; since the result is exactly that error for an
arbitrary describe result, neither argument binding code generation nor
output-shape resolution is reached for that invocation. -/
theorem c2_arity_mismatch_terminal (input : QueryMacroInput) (asIn : QueryAsMacroInput)
    (conn : Conn) (d : Describe)
    (hconn : conn input.source = .ok d)
    (hq : asIn.query_input = input)
    (hlen : input.args.length ≠ d.param_types.length) :
    expand_query input conn = .error (.arityMismatch d.param_types.length input.args.length)
    ∧ expand_query_as asIn conn
        = .error (.arityMismatch d.param_types.length input.args.length) := by
  have hdv : describe_validate input conn
      = .error (.arityMismatch d.param_types.length input.args.length) := by
    simp [describe_validate, hconn, hlen]
  constructor
  · simp [expand_query, hdv]
  · simp [expand_query_as, hq, hdv]

/-- C3: for every describe result with zero result columns, expansion with an
anonymous target succeeds with the "no output type" plan (each row maps to
unit) while the arguments are still bound, and expansion with a named target
fails with the `NoColumns` error, producing no plan. -/
theorem c3_zero_columns (input : QueryMacroInput) (asIn : QueryAsMacroInput) (conn : Conn)
    (d : Describe)
    (hconn : conn input.source = .ok d)
    (hempty : d.result_columns = [])
    (hq : asIn.query_input = input)
    (harity : input.args.length = d.param_types.length) :
    (∀ bp, quote_args input d = .ok bp →
        expand_query input conn = .ok ⟨input.source, bp, .noOutput⟩)
    ∧ expand_query_as asIn conn = .error .noColumns := by
  have hdv : describe_validate input conn = .ok d := by
    simp [describe_validate, hconn, harity]
  constructor
  · intro bp hbp
    simp [expand_query, hdv, hbp, hempty]
  · simp [expand_query_as, hq, hdv, hempty]

/-- C4: under the `Strong` checking mode (the declared mode of the Postgres
backend registry), an argument is accepted for a parameter iff its inferred
host type is exactly one of the host types registered for that parameter's
type id; in particular a 32-bit integer expression bound to a 64-bit integer
parameter fails with `ArgTypeMismatch` at that argument's position, while the
same expression against a 32-bit integer parameter produces one binding-plan
entry. -/
theorem c4_strong_mode_exact (id : PgTypeId) (ty : HostType) (a : Arg) (ha : a.ty = .i32) :
    (is_param_compatible postgresParamChecking id ty = true ↔ ty ∈ registeredTypes id)
    ∧ postgresParamChecking = .strong
    ∧ check_args 0 [a] [.int8] = .error (.argTypeMismatch 0 .int8 .i32)
    ∧ check_args 0 [a] [.int4] = .ok [⟨0, a.expr⟩] := by
  refine ⟨?_, rfl, ?_, ?_⟩
  · simp [is_param_compatible, postgresParamChecking]
  · have hc : is_param_compatible postgresParamChecking PgTypeId.int8 HostType.i32 = false := by
      decide
    simp [check_args, ha, hc]
  · have hc : is_param_compatible postgresParamChecking PgTypeId.int4 HostType.i32 = true := by
      decide
    simp [check_args, ha, hc]

/-- C9: expansion is deterministic: it depends only on the `QueryInput` and
on the describe result for that input's source (two connections agreeing on
that source yield identical plans, with the same field order, resolved types
and record type name), and two runs on the same input and connection yield
equal results. -/
theorem c9_deterministic (input : QueryMacroInput) (asIn : QueryAsMacroInput)
    (conn conn' : Conn)
    (h : conn input.source = conn' input.source)
    (hq : asIn.query_input = input) :
    expand_query input conn = expand_query input conn'
    ∧ expand_query_as asIn conn = expand_query_as asIn conn'
    ∧ ∀ e₁ e₂, expand_query input conn = e₁ → expand_query input conn = e₂ → e₁ = e₂ := by
  have hdv : describe_validate input conn = describe_validate input conn' := by
    simp [describe_validate, h]
  refine ⟨?_, ?_, ?_⟩
  · simp [expand_query, hdv]
  · simp [expand_query_as, hq, hdv]
  · intro e₁ e₂ h₁ h₂
    rw [← h₁, ← h₂]

/-- C10: for every non-empty describe result with an anonymous target, the
freshly synthesized `Record` struct in the emitted code carries a derived
`Debug` implementation. -/
theorem c10_record_derives_debug (input : QueryMacroInput) (conn : Conn) (d : Describe)
    (e : Expansion)
    (hconn : conn input.source = .ok d)
    (hne : d.result_columns ≠ [])
    (hok : expand_query input conn = .ok e) :
    ∃ derives cols, e.output = .record "Record" derives cols ∧ "Debug" ∈ derives := by
  obtain ⟨d1, args, hdv, hqa, hcase⟩ := expand_query_ok hok
  have hd1 : d1 = d := Except.ok.inj ((describe_validate_ok hdv).1.symm.trans hconn)
  subst hd1
  rcases hcase with ⟨hemp, -⟩ | ⟨-, cols, hcr, he⟩
  · exact absurd (List.isEmpty_iff.mp hemp) hne
  · exact ⟨["Debug"], cols, by rw [he], by simp⟩

/-- C8: the file-based expansion variants are extensionally equal to the
inline variants composed with file loading: whenever `expand_file_src`
resolves the path, `expand_query_file` equals `expand_query` on the resolved
input and `expand_query_file_as` equals `expand_query_as` on the resolved
input. -/
theorem c8_file_variants_inline (load : FileLoader) (input : QueryMacroInput)
    (asIn : QueryAsMacroInput) (conn : Conn) (i : QueryMacroInput) (ai : QueryAsMacroInput)
    (h1 : input.expand_file_src load = .ok i)
    (h2 : asIn.expand_file_src load = .ok ai) :
    expand_query_file load input conn = expand_query i conn
    ∧ expand_query_file_as load asIn conn = expand_query_as ai conn := by
  constructor
  · simp [expand_query_file, h1]
  · simp [expand_query_file_as, h2]

/-- C7: for every non-empty describe result with an anonymous target,
expansion synthesizes a fresh record type named exactly `Record` with one
field per result column, fields in the same order as the described columns
and field names derived from the column names; a column name that is not a
valid identifier is a hard failure of the column-to-rust computation. -/
theorem c7_anonymous_record (input : QueryMacroInput) (conn : Conn) (d : Describe) (e : Expansion)
    (hconn : conn input.source = .ok d)
    (hne : d.result_columns ≠ [])
    (hok : expand_query input conn = .ok e) :
    ∃ cols, columns_to_rust d.result_columns = .ok cols
      ∧ e.output = .record "Record" ["Debug"] cols
      ∧ cols.length = d.result_columns.length
      ∧ (∀ i (hi : i < cols.length) (hd : i < d.result_columns.length),
          (cols.get ⟨i, hi⟩).ident = (d.result_columns.get ⟨i, hd⟩).name)
      ∧ (∀ c ∈ d.result_columns, isValidIdent c.name = true)
      ∧ (∀ (cs : List ColumnDescriptor) (c : ColumnDescriptor), c ∈ cs →
          isValidIdent c.name = false → ∀ cols', columns_to_rust cs ≠ .ok cols') := by
  obtain ⟨d1, args, hdv, hqa, hcase⟩ := expand_query_ok hok
  have hd1 : d1 = d := Except.ok.inj ((describe_validate_ok hdv).1.symm.trans hconn)
  subst hd1
  rcases hcase with ⟨hemp, -⟩ | ⟨-, cols, hcr, he⟩
  · exact absurd (List.isEmpty_iff.mp hemp) hne
  · have hall := columns_to_rust_ok hcr
    have hlen := hall.length_eq
    refine ⟨cols, hcr, by rw [he], hlen.symm, ?_, ?_, ?_⟩
    · intro i hi hd'
      rw [List.forall₂_iff_get] at hall
      have h2 := hall.2 i hd' hi
      exact (column_to_rust_ok_inv h2).2.1
    · intro c hcmem
      obtain ⟨i, hi⟩ := List.get_of_mem hcmem
      rw [List.forall₂_iff_get] at hall
      have h2 := hall.2 i i.isLt (by rw [← hall.1]; exact i.isLt)
      rw [hi] at h2
      exact (column_to_rust_ok_inv h2).1
    · intro cs c hmem hinv
      exact columns_to_rust_invalid hmem hinv

/-- C1: the resolved host type in a `RustColumn` is the optional-wrapped form
iff nullability is `Unknown` or `DefinitelyNull` and the bare form iff
nullability is `DefinitelyNotNull`; the wrapping decision is a pure function
of the type id and nullability alone, independent of the column's position
and name; and the anonymous-target and named-target expansions both factor
through the same `columns_to_rust` computation. -/
theorem c1_nullability_wrapping (c : ColumnDescriptor) (rc : RustColumn)
    (hc : column_to_rust c = .ok rc) :
    (rc.type_.isOption = true ↔ (c.nullability = .unknown ∨ c.nullability = .definitelyNull))
    ∧ (rc.type_.isOption = false ↔ c.nullability = .definitelyNotNull)
    ∧ (∀ (c' : ColumnDescriptor) (rc' : RustColumn), column_to_rust c' = .ok rc' →
        c'.type_id = c.type_id → c'.nullability = c.nullability → rc'.type_ = rc.type_)
    ∧ (∀ (input : QueryMacroInput) (asIn : QueryAsMacroInput) (conn : Conn) (d : Describe)
        (e e' : Expansion) (cols : List RustColumn),
        conn input.source = .ok d → asIn.query_input = input →
        columns_to_rust d.result_columns = .ok cols →
        expand_query input conn = .ok e → expand_query_as asIn conn = .ok e' →
        e.output = .record "Record" ["Debug"] cols
        ∧ ∃ fields, resolve_named asIn.as_fields cols = .ok fields
            ∧ e'.output = .named asIn.as_ty fields
            ∧ ∀ x ∈ fields, x ∈ cols) := by
  obtain ⟨hv, hident, t, ht, hty⟩ := column_to_rust_ok_inv hc
  have hnop := return_type_not_option ht
  refine ⟨?_, ?_, ?_, ?_⟩
  · rw [hty]
    cases c.nullability
    · simp [hnop]
    · simp [HostType.isOption]
    · simp [HostType.isOption]
  · rw [hty]
    cases c.nullability
    · simp [hnop]
    · simp [HostType.isOption]
    · simp [HostType.isOption]
  · intro c' rc' hc' htid hnul
    obtain ⟨-, -, t', ht', hty'⟩ := column_to_rust_ok_inv hc'
    rw [htid, ht] at ht'
    have htt : t' = t := (Option.some.inj ht').symm
    subst htt
    rw [hty', hty, hnul]
  · intro input asIn conn d e e' cols hconn hq hcr hok hok'
    obtain ⟨d1, args1, hdv1, hqa1, hcase⟩ := expand_query_ok hok
    obtain ⟨d2, args2, cols2, fields2, hdv2, hemp2, hqa2, hcr2, hrn2, he'⟩ :=
      expand_query_as_ok hok'
    have hd1 := Except.ok.inj ((describe_validate_ok hdv1).1.symm.trans hconn)
    subst hd1
    rw [hq] at hdv2
    have hd2 := Except.ok.inj ((describe_validate_ok hdv2).1.symm.trans hconn)
    subst hd2
    have hc2 := Except.ok.inj (hcr2.symm.trans hcr)
    subst hc2
    rcases hcase with ⟨hemp, -⟩ | ⟨-, cols1, hcr1, he⟩
    · exact absurd hemp hemp2
    · have hc1 := Except.ok.inj (hcr1.symm.trans hcr)
      subst hc1
      refine ⟨by rw [he], fields2, hrn2, by rw [he'], resolve_named_mem hrn2⟩

/-- C6: a described column of `Unknown` nullability bound to a named-target
field declared with the bare (non-optional) host type does not fail at
expansion time -- the expansion outcome is independent of the declared field
types altogether -- and the incompatibility surfaces as the decode-time
`UnexpectedNull` failure when the value is actually null (while an
optional-wrapped type decodes a null to its none value). -/
theorem c6_unknown_nullable_decode_time (t : HostType) (hbare : t.isOption = false) :
    (∀ (a a' : QueryAsMacroInput) (conn : Conn),
        a.query_input = a'.query_input → a.as_ty = a'.as_ty →
        a.as_fields.map Prod.fst = a'.as_fields.map Prod.fst →
        expand_query_as a conn = expand_query_as a' conn)
    ∧ decode t none = .error .unexpectedNull
    ∧ (∀ u : HostType, decode (.option u) none = .ok .none) := by
  refine ⟨?_, ?_, fun u => rfl⟩
  · intro a a' conn hq hty hnames
    have hr : ∀ cols, resolve_named a.as_fields cols = resolve_named a'.as_fields cols :=
      fun cols => resolve_named_names_only cols hnames
    simp [expand_query_as, hq, hty, hr]
  · cases t <;> first
      | rfl
      | exact absurd hbare (by simp [HostType.isOption])

/-! ## Witnesses instantiating the claims at concrete inputs -/


theorem c1_witness :
    column_to_rust ⟨"name", PgTypeId.text, Nullability.unknown⟩
        = .ok ⟨"name", HostType.option HostType.string⟩
    ∧ (RustColumn.mk "name" (HostType.option HostType.string)).type_.isOption = true := by
  refine ⟨rfl, ?_⟩
  exact ((c1_nullability_wrapping ⟨"name", .text, .unknown⟩
    ⟨"name", .option .string⟩ rfl).1).mpr (Or.inl rfl)

theorem c2_witness :
    emptyConn sampleInput.source = .ok ⟨[], []⟩
    ∧ sampleInput.args.length ≠ (Describe.mk [] []).param_types.length
    ∧ expand_query sampleInput emptyConn = .error (.arityMismatch 0 1) := by
  have h := c2_arity_mismatch_terminal sampleInput ⟨sampleInput, "Account", []⟩ emptyConn
      ⟨[], []⟩ rfl rfl (by decide)
  exact ⟨rfl, by decide, h.1⟩

theorem c3_witness :
    emptyConn ddlInput.source = .ok ⟨[], []⟩
    ∧ expand_query ddlInput emptyConn = .ok ⟨ddlInput.source, [], .noOutput⟩
    ∧ expand_query_as ⟨ddlInput, "Account", [("id", HostType.i32)]⟩ emptyConn
        = .error .noColumns := by
  have h := c3_zero_columns ddlInput ⟨ddlInput, "Account", [("id", HostType.i32)]⟩ emptyConn
      ⟨[], []⟩ rfl rfl rfl rfl
  exact ⟨rfl, h.1 [] rfl, h.2⟩

theorem c4_witness :
    (Arg.mk "1i32" HostType.i32).ty = HostType.i32
    ∧ check_args 0 [⟨"1i32", HostType.i32⟩] [PgTypeId.int8]
        = .error (.argTypeMismatch 0 .int8 .i32)
    ∧ check_args 0 [⟨"1i32", HostType.i32⟩] [PgTypeId.int4] = .ok [⟨0, "1i32"⟩] := by
  have h := c4_strong_mode_exact PgTypeId.int8 HostType.i32 ⟨"1i32", HostType.i32⟩ rfl
  exact ⟨rfl, h.2.2.1, h.2.2.2⟩

theorem c5_witness :
    (([("id", HostType.i32)].map Prod.fst).Nodup)
    ∧ resolve_named [("id", HostType.i32)] [⟨"id", HostType.i32⟩]
        = .ok [⟨"id", HostType.i32⟩]
    ∧ resolve_named [("id", HostType.i32)] [⟨"id", HostType.i32⟩, ⟨"extra", HostType.bool⟩]
        = .error (.fieldMismatch [] ["extra"]) := by
  have h := c5_field_set_equality [("id", HostType.i32)] [⟨"id", HostType.i32⟩]
      [⟨"id", HostType.i32⟩] (by decide) (by rfl)
  refine ⟨by decide, by rfl, ?_⟩
  exact h.2.2.2.1 ⟨"extra", HostType.bool⟩ (by decide)

theorem c6_witness :
    HostType.string.isOption = false
    ∧ expand_query_as acctBare sampleConn = expand_query_as acctOpt sampleConn
    ∧ expand_query_as acctBare sampleConn
        = .ok ⟨sampleInput.source, [⟨0, "1i32"⟩],
            .named "Account"
              [⟨"id", HostType.i32⟩, ⟨"name", HostType.option HostType.string⟩]⟩
    ∧ decode HostType.string none = .error .unexpectedNull := by
  have h := c6_unknown_nullable_decode_time HostType.string rfl
  exact ⟨rfl, h.1 acctBare acctOpt sampleConn rfl rfl rfl, by rfl, h.2.1⟩

theorem c7_witness :
    sampleConn sampleInput.source = .ok sampleDescribe
    ∧ sampleDescribe.result_columns ≠ []
    ∧ expand_query sampleInput sampleConn
        = .ok ⟨sampleInput.source, [⟨0, "1i32"⟩],
            .record "Record" ["Debug"]
              [⟨"id", HostType.i32⟩, ⟨"name", HostType.option HostType.string⟩]⟩
    ∧ ∃ cols, columns_to_rust sampleDescribe.result_columns = .ok cols
        ∧ cols.length = sampleDescribe.result_columns.length := by
  have h := c7_anonymous_record sampleInput sampleConn sampleDescribe
      ⟨sampleInput.source, [⟨0, "1i32"⟩],
        .record "Record" ["Debug"]
          [⟨"id", HostType.i32⟩, ⟨"name", HostType.option HostType.string⟩]⟩
      rfl (by decide) (by rfl)
  obtain ⟨cols, hcr, -, hlen, -, -, -⟩ := h
  exact ⟨rfl, by decide, by rfl, cols, hcr, hlen⟩

theorem c8_witness :
    QueryMacroInput.expand_file_src sampleLoader ddlInput
        = .ok { ddlInput with source := sampleInput.source }
    ∧ expand_query_file sampleLoader ddlInput sampleConn
        = expand_query { ddlInput with source := sampleInput.source } sampleConn := by
  have h := c8_file_variants_inline sampleLoader ddlInput ⟨ddlInput, "Account", []⟩ sampleConn
      { ddlInput with source := sampleInput.source }
      ⟨{ ddlInput with source := sampleInput.source }, "Account", []⟩ rfl rfl
  exact ⟨rfl, h.1⟩

theorem c9_witness :
    sampleConn sampleInput.source = sampleConnAlt sampleInput.source
    ∧ expand_query sampleInput sampleConn = expand_query sampleInput sampleConnAlt := by
  have h := c9_deterministic sampleInput ⟨sampleInput, "Account", []⟩ sampleConn sampleConnAlt
      (by rfl) rfl
  exact ⟨by rfl, h.1⟩

theorem c10_witness :
    sampleConn sampleInput.source = .ok sampleDescribe
    ∧ sampleDescribe.result_columns ≠ []
    ∧ ∃ derives cols,
        (Expansion.mk sampleInput.source [⟨0, "1i32"⟩]
            (.record "Record" ["Debug"]
              [⟨"id", HostType.i32⟩, ⟨"name", HostType.option HostType.string⟩])).output
          = .record "Record" derives cols ∧ "Debug" ∈ derives := by
  refine ⟨rfl, by decide, ?_⟩
  exact c10_record_derives_debug sampleInput sampleConn sampleDescribe _ rfl (by decide) (by rfl)


end Sqlx
